import Mathlib

/-
Verification development for the QChem output parsing module
(pymatgen/io/qchem_io/outputs.py).

The module's core is a regular-expression driven extraction engine:
* read_pattern   : per-line scalar extraction, delegating to monty's regrep;
* read_table_pattern : header/row/footer table extraction over the full text.

We give a shallow embedding: Python strings are lists of characters, the
subset of Python's `re` used by the module (literals, character classes,
the perl classes \d \s \w, dot, greedy star and plus, non-capturing and
capturing groups, `^`, with the MULTILINE and DOTALL flags) is embedded as
a small backtracking matcher with Python's leftmost-greedy priority order,
and the two extraction routines plus the QCCalc constructor are translated
line by line from the source.
-/

namespace QC

/-- Python strings are modelled as lists of characters. -/
abbrev Str := List Char

/-- Coerce a Lean string literal to the model's string type. -/
def str (s : String) : Str := s.data

/-- Python's `\d` on the ASCII range. -/
def isDigitC (c : Char) : Bool := '0' ≤ c && c ≤ '9'

/-- Python's `\s` on the ASCII range: space, tab, newline, CR, VT, FF. -/
def isSpaceC (c : Char) : Bool :=
  c = ' ' || c = '\t' || c = '\n' || c = '\r' || c = '\x0b' || c = '\x0c'

/-- Python's `\w` on the ASCII range. -/
def isWordC (c : Char) : Bool :=
  ('a' ≤ c && c ≤ 'z') || ('A' ≤ c && c ≤ 'Z') || isDigitC c || c = '_'

/-- One item of a character class such as `[\d\-\.]`. -/
inductive CItem where
  | ch (c : Char)
  | rng (lo hi : Char)
  | dcls
  | scls
  | wcls
deriving DecidableEq, Repr

/-- Membership of a character in one class item. -/
def inItem (c : Char) : CItem → Bool
  | .ch c' => c = c'
  | .rng lo hi => lo ≤ c && c ≤ hi
  | .dcls => isDigitC c
  | .scls => isSpaceC c
  | .wcls => isWordC c

/-- Membership of a character in a (possibly negated) character class. -/
def inCls (neg : Bool) (items : List CItem) (c : Char) : Bool :=
  if neg then !(items.any (inItem c)) else items.any (inItem c)

/-- Abstract syntax of the regular-expression subset used by the module.
Alternation is not needed by any pattern in the source.  `group` carries
the Python group number explicitly; `bol` is `^`. -/
inductive Regex where
  | eps
  | chr (c : Char)
  | dot
  | cls (neg : Bool) (items : List CItem)
  | bol
  | cat (a b : Regex)
  | star (a : Regex)
  | group (idx : Nat) (a : Regex)
deriving DecidableEq, Repr

/-- Node count, used to bound the matcher's recursion fuel. -/
def rsize : Regex → Nat
  | .eps => 1
  | .chr _ => 1
  | .dot => 1
  | .cls _ _ => 1
  | .bol => 1
  | .cat a b => rsize a + rsize b + 1
  | .star a => rsize a + 1
  | .group _ a => rsize a + 1

/-- Shift every capturing-group number by `n`: Python renumbers groups when
patterns are concatenated into a larger pattern, as `read_table_pattern`
does when it builds its compound table pattern. -/
def shiftGroups (n : Nat) : Regex → Regex
  | .eps => .eps
  | .chr c => .chr c
  | .dot => .dot
  | .cls neg items => .cls neg items
  | .bol => .bol
  | .cat a b => .cat (shiftGroups n a) (shiftGroups n b)
  | .star a => .star (shiftGroups n a)
  | .group i a => .group (i + n) (shiftGroups n a)

/-- Captured substrings, most recent capture first (Python keeps the last
capture of a group that participates several times). -/
abbrev Caps := List (Nat × Str)

/-- The substring of `s` from position `a` (inclusive) to `b` (exclusive). -/
def slice (s : Str) (a b : Nat) : Str := (s.drop a).take (b - a)

/-- Backtracking matcher.  `mrun ml da fuel r s pos cp` returns the list of
possible (end position, captures) pairs for a match of `r` in `s` starting
at `pos`, in Python's backtracking priority order: the head of the list is
the alternative Python's engine commits to first.  `ml` and `da` are the
MULTILINE and DOTALL flags.  Greedy `star` prefers more iterations and,
like Python's engine, never repeats a zero-width iteration. -/
def mrun (ml da : Bool) : Nat → Regex → Str → Nat → Caps → List (Nat × Caps)
  | 0, _, _, _, _ => []
  | Nat.succ f, r, s, pos, cp =>
    match r with
    | .eps => [(pos, cp)]
    | .chr c =>
      match s[pos]? with
      | some c' => if c' = c then [(pos + 1, cp)] else []
      | none => []
    | .dot =>
      match s[pos]? with
      | some c' => if da || c' ≠ '\n' then [(pos + 1, cp)] else []
      | none => []
    | .cls neg items =>
      match s[pos]? with
      | some c' => if inCls neg items c' then [(pos + 1, cp)] else []
      | none => []
    | .bol =>
      if pos = 0 || (ml && s[pos - 1]? = some '\n') then [(pos, cp)] else []
    | .cat a b =>
      (mrun ml da f a s pos cp).flatMap (fun pc => mrun ml da f b s pc.1 pc.2)
    | .star a =>
      ((mrun ml da f a s pos cp).filter (fun pc => pos < pc.1)).flatMap
        (fun pc => mrun ml da f (.star a) s pc.1 pc.2) ++ [(pos, cp)]
    | .group i a =>
      (mrun ml da f a s pos cp).map (fun pc => (pc.1, (i, slice s pos pc.1) :: pc.2))

/-- Fuel that is comfortably sufficient for the matcher on input `s`. -/
def fuelFor (r : Regex) (s : Str) : Nat := (rsize r + 1) * (s.length + 2)

/-- Attempt a match of `r` anchored at position `pos`; Python's engine
returns the first alternative in backtracking priority order. -/
def tryAt (ml da : Bool) (r : Regex) (s : Str) (pos : Nat) : Option (Nat × Caps) :=
  (mrun ml da (fuelFor r s) r s pos []).head?

/-- The result of a successful Python match: span and captured groups. -/
structure MatchRes where
  mstart : Nat
  mstop : Nat
  caps : Caps
deriving DecidableEq, Repr

/-- Scan start positions `pos, pos+1, ...` (at most `k` of them) and return
the leftmost successful match, as Python's `search` does. -/
def searchAux (ml da : Bool) (r : Regex) (s : Str) : Nat → Nat → Option MatchRes
  | 0, _ => none
  | Nat.succ k, pos =>
    match tryAt ml da r s pos with
    | some ec => some ⟨pos, ec.1, ec.2⟩
    | none => searchAux ml da r s k (pos + 1)

/-- Python's `re.search`: leftmost match anywhere in the string. -/
def rsearch (ml da : Bool) (r : Regex) (s : Str) : Option MatchRes :=
  searchAux ml da r s (s.length + 1) 0

/-- One step list of Python's `finditer`: repeatedly search from `pos`,
resuming after each match (one past it when the match is empty). -/
def finditerAux (ml da : Bool) (r : Regex) (s : Str) : Nat → Nat → List MatchRes
  | 0, _ => []
  | Nat.succ k, pos =>
    if pos > s.length then []
    else
      match searchAux ml da r s (s.length + 1 - pos) pos with
      | none => []
      | some m =>
        m :: finditerAux ml da r s k (if m.mstop = m.mstart then m.mstop + 1 else m.mstop)

/-- Python's `re.finditer`: all non-overlapping matches, left to right. -/
def finditer (ml da : Bool) (r : Regex) (s : Str) : List MatchRes :=
  finditerAux ml da r s (s.length + 2) 0

/-- Python's `m.group(i)`: the most recent capture of group `i`, if any. -/
def capLookup (cp : Caps) (i : Nat) : Option Str :=
  (cp.find? (fun x => x.1 = i)).map (fun x => x.2)

/-- A compiled pattern: its syntax, its number of capturing groups and its
named-group table (Python assigns names to group numbers at compile time;
`m.groupdict()` is keyed by exactly the names declared in the pattern). -/
structure RegexPat where
  ast : Regex
  ngroups : Nat
  names : List (Str × Nat)
deriving DecidableEq, Repr

/-- Python's `str` applied to a captured group: the substring itself, or
the text rendering of None for a group that did not participate. -/
def pyStr (v : Option Str) : Str :=
  match v with
  | some s => s
  | none => str "None"

/-- The default postprocess of the module, Python's `str`, which never
raises. -/
def strPost {ε : Type} : Option Str → Except ε Str := fun v => .ok (pyStr v)

/-- Effectful map over a list in the Except monad, stopping at the first
error, exactly like a Python loop in which an exception aborts the
enclosing call. -/
def collectM {ε α β : Type} (f : α → Except ε β) : List α → Except ε (List β)
  | [] => .ok []
  | x :: xs =>
    match f x with
    | .error e => .error e
    | .ok y =>
      match collectM f xs with
      | .error e => .error e
      | .ok ys => .ok (y :: ys)

/-- A Row Record: Python code builds a dict when the row pattern declares
named groups and a list of the positional groups otherwise. -/
inductive RowRecord (α : Type) where
  | positional (vals : List α)
  | named (fields : List (Str × α))
deriving DecidableEq, Repr

/-- True for the dict-shaped record. -/
def isNamedRec {α : Type} : RowRecord α → Bool
  | .positional _ => false
  | .named _ => true

/-- A value stored in `self.data`: a scalar read stores, per match, the
list of all postprocessed groups of that match; a table read stores the
list of tables, or the last table alone under `last_one_only`. -/
inductive Value (α : Type) where
  | scalar (xs : List (List α))
  | tables (ts : List (List (RowRecord α)))
  | single (t : List (RowRecord α))
deriving DecidableEq, Repr

/-- The `self.data` dictionary, with Python's insertion-order-preserving
overwrite-in-place semantics. -/
abbrev Data (α : Type) := List (Str × Value α)

/-- Python dict assignment `d[k] = v`. -/
def insertData {α : Type} (k : Str) (v : Value α) : Data α → Data α
  | [] => [(k, v)]
  | (k', v') :: rest => if k' = k then (k, v) :: rest else (k', v') :: insertData k v rest

/-- Python dict lookup `d.get(k)`. -/
def lookupD {α : Type} : Data α → Str → Option (Value α)
  | [], _ => none
  | (k', v) :: d, k => if k' = k then some v else lookupD d k

/-- Python truthiness of `self.data.get(k, [])` as used by the QCCalc
constructor: the key is absent or its list value is empty. -/
def truthy {α : Type} (v : Option (Value α)) : Bool :=
  match v with
  | none => false
  | some (.scalar xs) => !xs.isEmpty
  | some (.tables ts) => !ts.isEmpty
  | some (.single t) => !t.isEmpty

/-- Python's `text.split(chr)` for a one-character separator, as used on
the captured table body with separator `\n`. -/
def splitNl : Str → List Str
  | [] => [[]]
  | c :: rest =>
    match splitNl rest with
    | [] => [[c]]
    | h :: t => if c = '\n' then [] :: h :: t else (c :: h) :: t

/-- Iterating a Python text file yields its lines with the trailing
newline kept on every line but possibly the last; an empty file yields no
lines. -/
def fileLinesAux (acc : Str) : Str → List Str
  | [] => if acc.isEmpty then [] else [acc.reverse]
  | c :: rest =>
    if c = '\n' then (acc.reverse ++ [c]) :: fileLinesAux [] rest
    else fileLinesAux (c :: acc) rest

/-- The lines of the source text, as Python file iteration yields them. -/
def fileLines (text : Str) : List Str := fileLinesAux [] text

/-- Python's `m.groups()` postprocessed in order: monty's regrep applies
`postprocess` to every captured group of a match. -/
def groupsOf {ε α : Type} (p : RegexPat) (post : Option Str → Except ε α)
    (m : MatchRes) : Except ε (List α) :=
  collectM post ((List.range p.ngroups).map (fun i => capLookup m.caps (i + 1)))

/-- Per-key match accumulators of regrep, kept positionally parallel to
the pattern list; each entry is (postprocessed groups, line number). -/
abbrev Entries (α : Type) := List (List α × Int)

/-- The line number regrep records: the enumeration index, negated (less
one) when reading in reverse. -/
def lineNo (rev : Bool) (i : Nat) : Int :=
  if rev then -(Int.ofNat i + 1) else Int.ofNat i

/-- One line of monty's regrep loop: each pattern is searched in the line,
and a match appends its postprocessed groups plus the line number to that
pattern's accumulator. -/
def lineStep {ε α : Type} (post : Option Str → Except ε α) (l : Str) (idx : Int) :
    List (Str × RegexPat) → List (Entries α) → Except ε (List (Entries α))
  | [], st => .ok st
  | _ :: _, [] => .ok []
  | (_, p) :: ps, es :: st =>
    match rsearch false false p.ast l with
    | none => (lineStep post l idx ps st).map (fun st' => es :: st')
    | some m =>
      match groupsOf p post m with
      | .error e => .error e
      | .ok g => (lineStep post l idx ps st).map (fun st' => (es ++ [(g, idx)]) :: st')

/-- The scanning loop of monty's regrep: process each line in order and,
when `terminate_on_match` is set, stop as soon as every pattern has at
least one match. -/
def scanLines {ε α : Type} (pats : List (Str × RegexPat)) (post : Option Str → Except ε α)
    (term rev : Bool) : List Str → Nat → List (Entries α) → Except ε (List (Entries α))
  | [], _, st => .ok st
  | l :: rest, i, st =>
    match lineStep post l (lineNo rev i) pats st with
    | .error e => .error e
    | .ok st' =>
      if term && st'.all (fun es => !es.isEmpty) then .ok st'
      else scanLines pats post term rev rest (i + 1) st'

/-- monty.re.regrep: scan the file's lines (in reverse when `rev`) with a
set of patterns and return, positionally per pattern, the list of
(postprocessed groups, line number) pairs of the matches found. -/
def regrep {ε α : Type} (text : Str) (pats : List (Str × RegexPat)) (rev term : Bool)
    (post : Option Str → Except ε α) : Except ε (List (Entries α)) :=
  scanLines pats post term rev
    (if rev then (fileLines text).reverse else fileLines text) 0
    (pats.map (fun _ => []))

/-- The loop at the end of QCCalc.read_pattern: for every requested key,
`self.data[k] = [i[0] for i in matches.get(k, [])]` keeps, per match, the
first component of the regrep pair, i.e. the full list of postprocessed
captured groups, and drops the line number. -/
def storeScalars {α : Type} : List (Str × RegexPat) → List (Entries α) → Data α → Data α
  | [], _, d => d
  | (k, _) :: ps, es :: rest, d =>
    storeScalars ps rest (insertData k (.scalar (es.map (fun e => e.1))) d)
  | (k, _) :: ps, [], d => storeScalars ps [] (insertData k (.scalar []) d)

/-- QCCalc.read_pattern (outputs.py lines 123-149): run regrep over the
source and store, under every requested key, the per-match group lists.
The returned pair is (outcome, the `self.data` dictionary after the call);
an exception leaves the dictionary untouched. -/
def read_pattern {ε α : Type} (text : Str) (pats : List (Str × RegexPat)) (rev term : Bool)
    (post : Option Str → Except ε α) (d : Data α) : Except ε Unit × Data α :=
  match regrep text pats rev term post with
  | .error e => (.error e, d)
  | .ok sts => (.ok (), storeScalars pats sts d)

/-- Errors a read_table_pattern call can raise: `rowNoMatch` is the
AttributeError from calling `.groupdict()` on the None a failed
`rp.search(line)` returns; `emptyTableList` is the IndexError from
`tables[-1]` on an empty list; `postErr` is an exception raised by the
caller-supplied postprocess. -/
inductive TableErr (ε : Type) where
  | rowNoMatch
  | emptyTableList
  | postErr (e : ε)
deriving DecidableEq, Repr

/-- The compound table pattern of read_table_pattern (outputs.py line
195): `header + \s*^(?P<table_body>(?:\s+row)+)\s+ + footer`, with group
numbers renumbered exactly as Python's `re` does when the three pattern
strings are concatenated. -/
def tablePattern (hp rp fp : RegexPat) : RegexPat :=
  let bodyIdx := hp.ngroups + 1
  let wsC : Regex := .cls false [.scls]
  let ast : Regex :=
    .cat hp.ast (.cat (.star wsC) (.cat .bol (.cat
      (.group bodyIdx
        (let item := .cat (.cat wsC (.star wsC)) (shiftGroups bodyIdx rp.ast)
         .cat item (.star item)))
      (.cat (.cat wsC (.star wsC)) (shiftGroups (bodyIdx + rp.ngroups) fp.ast)))))
  { ast := ast
    ngroups := hp.ngroups + 1 + rp.ngroups + fp.ngroups
    names := hp.names ++ [(str "table_body", bodyIdx)]
      ++ rp.names.map (fun kv => (kv.1, kv.2 + bodyIdx))
      ++ fp.names.map (fun kv => (kv.1, kv.2 + bodyIdx + rp.ngroups)) }

/-- The captured `table_body` group of one compound match. -/
def bodyOf (hp : RegexPat) (m : MatchRes) : Str :=
  (capLookup m.caps (hp.ngroups + 1)).getD []

/-- The per-line body of the read_table_pattern loop (outputs.py lines
202-210): search the row pattern in the line, then build a dict of the
postprocessed named groups if the pattern declares any, and the list of
all postprocessed positional groups otherwise.  A line the row pattern
does not match raises (groupdict on None). -/
def processLine {ε α : Type} (rp : RegexPat) (post : Option Str → Except ε α)
    (line : Str) : Except (TableErr ε) (RowRecord α) :=
  match rsearch false false rp.ast line with
  | none => .error .rowNoMatch
  | some m =>
    if (rp.names.map (fun nv => (nv.1, capLookup m.caps nv.2))).length > 0 then
      match collectM (fun nv : Str × Option Str =>
          match post nv.2 with
          | .error e => .error (TableErr.postErr e)
          | .ok x => .ok (nv.1, x))
          (rp.names.map (fun nv => (nv.1, capLookup m.caps nv.2))) with
      | .error e => .error e
      | .ok fields => .ok (.named fields)
    else
      match collectM (fun v =>
          match post v with
          | .error e => .error (TableErr.postErr e)
          | .ok x => .ok x)
          ((List.range rp.ngroups).map (fun i => capLookup m.caps (i + 1))) with
      | .error e => .error e
      | .ok vals => .ok (.positional vals)

/-- One table: the captured body region split on newlines, every line
processed with the row pattern, in source line order. -/
def processBody {ε α : Type} (rp : RegexPat) (post : Option Str → Except ε α)
    (body : Str) : Except (TableErr ε) (List (RowRecord α)) :=
  collectM (processLine rp post) (splitNl body)

/-- Store under the attribute name when one was given (outputs.py lines
216-217). -/
def store {α : Type} (attr : Option Str) (v : Value α) (d : Data α) : Data α :=
  match attr with
  | none => d
  | some k => insertData k v d

/-- QCCalc.read_table_pattern (outputs.py lines 152-218).  The text is
matched against the compound pattern with MULTILINE and DOTALL; every
match contributes one table built from its body lines; with
`last_one_only` only the final table is kept, unwrapped, and indexing an
empty table list raises.  The returned pair is (outcome, the `self.data`
dictionary after the call); an exception leaves the dictionary
untouched. -/
def read_table_pattern {ε α : Type} (text : Str) (hp rp fp : RegexPat)
    (post : Option Str → Except ε α) (attr : Option Str) (lastOnly : Bool)
    (d : Data α) : Except (TableErr ε) (Value α) × Data α :=
  let tp := tablePattern hp rp fp
  let ms := finditer true true tp.ast text
  match collectM (fun m => processBody rp post (bodyOf hp m)) ms with
  | .error e => (.error e, d)
  | .ok tables =>
    if lastOnly then
      match tables.getLast? with
      | none => (.error .emptyTableList, d)
      | some t => (.ok (.single t), store attr (.single t) d)
    else (.ok (.tables tables), store attr (.tables tables) d)

/-- Right-nested concatenation of a pattern sequence. -/
def rcat (rs : List Regex) : Regex := rs.foldr .cat .eps

/-- A literal text fragment of a pattern. -/
def rchars (s : String) : Regex := rcat (s.data.map Regex.chr)

/-- Greedy `+`, as Python expands it. -/
def rplus (r : Regex) : Regex := .cat r (.star r)

/-- The class `\s`. -/
def wsCh : Regex := .cls false [.scls]

/-- The pattern `\s+`. -/
def wsP : Regex := rplus wsCh

/-- The pattern `\s*`. -/
def wsS : Regex := .star wsCh

/-- The pattern `\d+`. -/
def digP : Regex := rplus (.cls false [.dcls])

/-- The class `[\d\-\.]`. -/
def numCls : Regex := .cls false [.dcls, .ch '-', .ch '.']

/-- The pattern `([\d\-\.]+)` without its group wrapper. -/
def numP : Regex := rplus numCls

/-- The pattern `\-+`. -/
def dashP : Regex := rplus (.chr '-')

/-- The pattern `\w+`. -/
def wordP : Regex := rplus (.cls false [.wcls])

/-- Probe pattern (outputs.py line 35):
`A\sunrestricted\sSCF\scalculation\swill\sbe`. -/
def unrestrictedPat : RegexPat :=
  { ast := rcat [.chr 'A', wsCh, rchars "unrestricted", wsCh, rchars "SCF", wsCh,
      rchars "calculation", wsCh, rchars "will", wsCh, rchars "be"]
    ngroups := 0, names := [] }

/-- Probe pattern (outputs.py line 38):
`\s+GEN_SCFMAN: A general SCF calculation manager`. -/
def genscfmanPat : RegexPat :=
  { ast := rcat [wsP, rchars "GEN_SCFMAN: A general SCF calculation manager"]
    ngroups := 0, names := [] }

/-- Scalar pattern (outputs.py line 53): `Final\senergy\sis\s+([\d\-\.]+)`. -/
def finalEnergyPat : RegexPat :=
  { ast := rcat [rchars "Final", wsCh, rchars "energy", wsCh, rchars "is", wsP,
      .group 1 numP]
    ngroups := 1, names := [] }

/-- Scalar pattern (outputs.py line 57): `<S\^2>\s=\s+([\d\-\.]+)`. -/
def s2Pat : RegexPat :=
  { ast := rcat [rchars "<S^2>", wsCh, rchars "=", wsP, .group 1 numP]
    ngroups := 1, names := [] }

/-- GEN_SCFMAN header pattern (outputs.py line 79). -/
def genHeader : RegexPat :=
  { ast := rcat [wsS, dashP, wsP, rchars "Cycle", wsP, rchars "Energy", wsP,
      rchars "Error", wsP, dashP, wsP, dashP, wsP, rchars "OpenMP", wsP,
      rchars "Integral", wsP, rchars "computing", wsP, rchars "Module", wsP,
      dashP, wsP, dashP, wsP, rchars "OpenMP", wsP, rchars "Integral", wsP,
      rchars "computing", wsP, rchars "Module", wsP, dashP]
    ngroups := 0, names := [] }

/-- GEN_SCFMAN row pattern (outputs.py line 80):
`\s+\d+\s+([\d\-\.]+)\s+([\d\-\.]+)e([\d\-\.]+)` followed by four starred
non-capturing alternatives. -/
def genRow : RegexPat :=
  { ast := rcat [wsP, digP, wsP, .group 1 numP, wsP, .group 2 numP, .chr 'e',
      .group 3 numP,
      .star (rcat [wsP, rchars "Convergence criterion met"]),
      .star (rcat [wsP, rchars "Preconditoned Steepest Descent"]),
      .star (rcat [wsP, rchars "BFGS Step"]),
      .star (rcat [wsP, rchars "LineSearch Step"])]
    ngroups := 3, names := [] }

/-- GEN_SCFMAN footer pattern (outputs.py line 81):
`\-+\n\sSCF\stime:\s+CPU\s[\d\-\.]+s\s+wall\s+[\d\-\.]+s`. -/
def genFooter : RegexPat :=
  { ast := rcat [dashP, .chr '\n', wsCh, rchars "SCF", wsCh, rchars "time:", wsP,
      rchars "CPU", wsCh, numP, .chr 's', wsP, rchars "wall", wsP, numP, .chr 's']
    ngroups := 0, names := [] }

/-- Old-style SCF header pattern (outputs.py line 91):
`\-+\s+Cycle\s+Energy\s+DIIS Error\s+\-+`. -/
def scfHeader : RegexPat :=
  { ast := rcat [dashP, wsP, rchars "Cycle", wsP, rchars "Energy", wsP,
      rchars "DIIS Error", wsP, dashP]
    ngroups := 0, names := [] }

/-- Old-style SCF row pattern (outputs.py line 92):
`\s+\d+\s+([\d\-\.]+)\s+([\d\-\.]+)E([\d\-\.]+)(?:\sConvergence criterion met)*`. -/
def scfRow : RegexPat :=
  { ast := rcat [wsP, digP, wsP, .group 1 numP, wsP, .group 2 numP, .chr 'E',
      .group 3 numP, .star (rcat [wsCh, rchars "Convergence criterion met"])]
    ngroups := 3, names := [] }

/-- Old-style SCF footer pattern (outputs.py line 93):
`\-+\n\sSCF\stime:\s+CPU [\d\-\.]+ s\s+wall\s+[\d\-\.]+ s`. -/
def scfFooter : RegexPat :=
  { ast := rcat [dashP, .chr '\n', wsCh, rchars "SCF", wsCh, rchars "time:", wsP,
      rchars "CPU ", numP, rchars " s", wsP, rchars "wall", wsP, numP, rchars " s"]
    ngroups := 0, names := [] }

/-- Restricted Mulliken header pattern (outputs.py line 103); the dots in
`Charge \(a.u.\)` are unescaped and are the any-character metacharacter. -/
def rmHeader : RegexPat :=
  { ast := rcat [dashP, wsP, rchars "Ground-State Mulliken Net Atomic Charges",
      wsP, rchars "Atom", wsP, rchars "Charge (a", .dot, .chr 'u', .dot, .chr ')',
      wsP, dashP]
    ngroups := 0, names := [] }

/-- Restricted Mulliken row pattern (outputs.py line 104):
`\s+\d+\s(\w+)\s+([\d\-\.]+)`. -/
def rmRow : RegexPat :=
  { ast := rcat [wsP, digP, wsCh, .group 1 wordP, wsP, .group 2 numP]
    ngroups := 2, names := [] }

/-- Mulliken footer pattern (outputs.py lines 105 and 117):
`\s\s\-+\s+Sum of atomic charges`. -/
def mullikenFooter : RegexPat :=
  { ast := rcat [wsCh, wsCh, dashP, wsP, rchars "Sum of atomic charges"]
    ngroups := 0, names := [] }

/-- Unrestricted Mulliken header pattern (outputs.py line 115). -/
def umHeader : RegexPat :=
  { ast := rcat [dashP, wsP, rchars "Ground-State Mulliken Net Atomic Charges",
      wsP, rchars "Atom", wsP, rchars "Charge (a", .dot, .chr 'u', .dot, .chr ')',
      wsP, rchars "Spin", wsCh, rchars "(a", .dot, .chr 'u', .dot, .chr ')',
      wsP, dashP]
    ngroups := 0, names := [] }

/-- Unrestricted Mulliken row pattern (outputs.py line 116):
`\s+\d+\s(\w+)\s+([\d\-\.]+)\s+([\d\-\.]+)`. -/
def umRow : RegexPat :=
  { ast := rcat [wsP, digP, wsCh, .group 1 wordP, wsP, .group 2 numP, wsP,
      .group 3 numP]
    ngroups := 3, names := [] }

/-- The keys the constructor populates. -/
def ukey : Str := str "unrestricted"

/-- Key of the GEN_SCFMAN probe. -/
def gkey : Str := str "using_GEN_SCFMAN"

/-- Key of the GEN_SCFMAN table. -/
def genKey : Str := str "GEN_SCFMAN"

/-- Key of the old-style SCF table. -/
def scfKey : Str := str "SCF"

/-- Key of the restricted Mulliken table. -/
def rmKey : Str := str "restricted_Mulliken"

/-- Key of the unrestricted Mulliken table. -/
def umKey : Str := str "unrestricted_Mulliken"

/-- Key of the final energy scalar. -/
def feKey : Str := str "final_energy"

/-- Key of the S2 scalar. -/
def s2Key : Str := str "S2"

/-- The error type of a whole constructor run. -/
abbrev QErr := TableErr Unit

/-- One extraction step of the constructor, for stating that the cheap
scalar probes precede and select the table scans. -/
inductive Op where
  | scalarRead (keys : List Str)
  | tableRead (attr : Str)
deriving DecidableEq, Repr

/-- A source line contains a match of the pattern (how regrep, scanning
line by line, can see it). -/
def markerHit (p : RegexPat) (text : Str) : Bool :=
  (fileLines text).any (fun l => (rsearch false false p.ast l).isSome)

/-- QCCalc.__init__ (outputs.py lines 30-57): probe for the unrestricted
and GEN_SCFMAN markers, parse the corresponding SCF table variant, parse
the corresponding Mulliken table variant, read the final energy, and read
S2 only for unrestricted calculations.  Returns the outcome together with
the trace of extraction calls in execution order; an exception aborts the
remaining steps. -/
def QCCalc_init (text : Str) : Except QErr (Data Str) × List Op :=
  let t1 : List Op := [.scalarRead [ukey]]
  match read_pattern text [(ukey, unrestrictedPat)] false true (strPost (ε := QErr)) [] with
  | (.error e, _) => (.error e, t1)
  | (.ok _, d1) =>
    let t2 := t1 ++ [.scalarRead [gkey]]
    match read_pattern text [(gkey, genscfmanPat)] false true (strPost (ε := QErr)) d1 with
    | (.error e, _) => (.error e, t2)
    | (.ok _, d2) =>
      let g := truthy (lookupD d2 gkey)
      let t3 := t2 ++ [.tableRead (if g then genKey else scfKey)]
      let scfRes :=
        if g then
          read_table_pattern text genHeader genRow genFooter (strPost (ε := Unit))
            (some genKey) false d2
        else
          read_table_pattern text scfHeader scfRow scfFooter (strPost (ε := Unit))
            (some scfKey) false d2
      match scfRes with
      | (.error e, _) => (.error e, t3)
      | (.ok _, d3) =>
        let u := truthy (lookupD d3 ukey)
        let t4 := t3 ++ [.tableRead (if u then umKey else rmKey)]
        let mullRes :=
          if u then
            read_table_pattern text umHeader umRow mullikenFooter (strPost (ε := Unit))
              (some umKey) false d3
          else
            read_table_pattern text rmHeader rmRow mullikenFooter (strPost (ε := Unit))
              (some rmKey) false d3
        match mullRes with
        | (.error e, _) => (.error e, t4)
        | (.ok _, d4) =>
          let t5 := t4 ++ [.scalarRead [feKey]]
          match read_pattern text [(feKey, finalEnergyPat)] false false (strPost (ε := QErr)) d4 with
          | (.error e, _) => (.error e, t5)
          | (.ok _, d5) =>
            if u then
              let t6 := t5 ++ [.scalarRead [s2Key]]
              match read_pattern text [(s2Key, s2Pat)] false false (strPost (ε := QErr)) d5 with
              | (.error e, _) => (.error e, t6)
              | (.ok _, d6) => (.ok d6, t6)
            else (.ok d5, t5)

/-- The trace of extraction calls the constructor performs, as a function
of the two probe outcomes. -/
def initTrace (g u : Bool) : List Op :=
  [.scalarRead [ukey], .scalarRead [gkey],
   .tableRead (if g then genKey else scfKey),
   .tableRead (if u then umKey else rmKey),
   .scalarRead [feKey]] ++ (if u then [.scalarRead [s2Key]] else [])

/-- True when an Except value is an error. -/
def isErr {ε α : Type} : Except ε α → Bool
  | .error _ => true
  | .ok _ => false

/-- The group list Python's `m.groups()` yields, rendered through the
default `str` postprocess. -/
def pyGroups (p : RegexPat) (m : MatchRes) : List Str :=
  (List.range p.ngroups).map (fun i => pyStr (capLookup m.caps (i + 1)))

/-- Header of the three-block order example. -/
def exHp : RegexPat := { ast := rchars "HDR", ngroups := 0, names := [] }

/-- Row pattern of the three-block order example: one digit, captured. -/
def exRp : RegexPat := { ast := .group 1 (.cls false [.dcls]), ngroups := 1, names := [] }

/-- Footer of the three-block order example. -/
def exFp : RegexPat := { ast := rchars "FTR", ngroups := 0, names := [] }

/-- A text with three disjoint header/rows/footer blocks. -/
def exText : Str := str "HDR\n 1\n 2\n FTR\nHDR\n 3\n FTR\nHDR\n 4\n FTR"

/-- The first table of the three-block example. -/
def exT1 : List (RowRecord Str) := [.positional [str "1"], .positional [str "2"]]

/-- The second table of the three-block example. -/
def exT2 : List (RowRecord Str) := [.positional [str "3"]]

/-- The third table of the three-block example. -/
def exT3 : List (RowRecord Str) := [.positional [str "4"]]

/-- Header of the malformed-body example. -/
def defHp : RegexPat := { ast := rchars "H", ngroups := 0, names := [] }

/-- Row pattern of the malformed-body example: `(a)\s+(b)`, whose `\s+`
can swallow a newline so that one row match spans two physical lines. -/
def defRp : RegexPat :=
  { ast := rcat [.group 1 (.chr 'a'), wsP, .group 2 (.chr 'b')], ngroups := 2, names := [] }

/-- Footer of the malformed-body example. -/
def defFp : RegexPat := { ast := rchars "F", ngroups := 0, names := [] }

/-- A text in which the compound pattern detects a table whose body,
split on newlines, has a line the row pattern alone does not match. -/
def defText : Str := str "H\n a\nb F"

/-- A row pattern with a named capture group. -/
def namedRp : RegexPat :=
  { ast := .group 1 (.chr 'a'), ngroups := 1, names := [(str "x", 1)] }

/-- A one-table text for the named-group example. -/
def namedText : Str := str "H\n a F"

/-- A two-group scalar pattern `(a)(b)`. -/
def abPat : RegexPat :=
  { ast := rcat [.group 1 (.chr 'a'), .group 2 (.chr 'b')], ngroups := 2, names := [] }

/-- The spec's concrete scalar scenario text. -/
def feText : Str := str "Final energy is -76.12345"

/-- A postprocess that raises on the captured substring "1" and succeeds
elsewhere. -/
def failOn1 : Option Str → Except Unit Str := fun v =>
  match v with
  | some s => if s = str "1" then .error () else .ok s
  | none => .ok (str "None")

/-- The single compound match on the malformed-body example: its body
region is " a\nb". -/
def defMatch : MatchRes := ⟨0, 8, [(1, str " a\nb"), (3, str "b"), (2, str "a")]⟩

/-- The first compound match on the three-block example: its body region
is " 1\n 2". -/
def exMatch1 : MatchRes := ⟨0, 14, [(1, str " 1\n 2"), (2, str "2"), (2, str "1")]⟩

/-- A text containing no table at all. -/
def noTableText : Str := str "no table here"

/-- The data dictionary the constructor builds from an empty source. -/
def initEmptyData : Data Str :=
  [(ukey, .scalar []), (gkey, .scalar []), (scfKey, .tables []),
   (rmKey, .tables []), (feKey, .scalar [])]

/-- The result mapping of the two-pattern scalar read on the text "ab":
the matched pattern stores its group list, the unmatched one the empty
list. -/
def c4Data : Data Str :=
  [(str "k", .scalar [[str "a", str "b"]]), (str "q", .scalar [])]

/-- The matcher never moves backwards: every alternative it returns ends
at or after the start position. -/
theorem mrun_pos_le {ml da : Bool} :
    ∀ (f : Nat) (r : Regex) (s : Str) (pos : Nat) (cp : Caps),
      ∀ x ∈ mrun ml da f r s pos cp, pos ≤ x.1 := by
  intro f
  induction f with
  | zero => intro r s pos cp x hx; simp [mrun] at hx
  | succ f ih =>
    intro r s pos cp x hx
    cases r with
    | eps =>
      simp only [mrun, List.mem_singleton] at hx
      subst hx; exact le_refl _
    | chr c =>
      simp only [mrun] at hx
      split at hx
      · split at hx
        · simp only [List.mem_singleton] at hx; subst hx; exact Nat.le_succ _
        · simp at hx
      · simp at hx
    | dot =>
      simp only [mrun] at hx
      split at hx
      · split at hx
        · simp only [List.mem_singleton] at hx; subst hx; exact Nat.le_succ _
        · simp at hx
      · simp at hx
    | cls neg items =>
      simp only [mrun] at hx
      split at hx
      · split at hx
        · simp only [List.mem_singleton] at hx; subst hx; exact Nat.le_succ _
        · simp at hx
      · simp at hx
    | bol =>
      simp only [mrun] at hx
      split at hx
      · simp only [List.mem_singleton] at hx; subst hx; exact le_refl _
      · simp at hx
    | cat a b =>
      simp only [mrun, List.mem_flatMap] at hx
      obtain ⟨y, hy, hx2⟩ := hx
      exact le_trans (ih a s pos cp y hy) (ih b s y.1 y.2 x hx2)
    | star a =>
      simp only [mrun, List.mem_append] at hx
      rcases hx with hx | hx
      · simp only [List.mem_flatMap, List.mem_filter] at hx
        obtain ⟨y, ⟨_, hlt⟩, hx2⟩ := hx
        exact le_trans (Nat.le_of_lt (Nat.lt_of_lt_of_le
          (by simpa using hlt) (le_refl _))) (ih (.star a) s y.1 y.2 x hx2)
      · simp only [List.mem_singleton] at hx; subst hx; exact le_refl _
    | group i a =>
      simp only [mrun, List.mem_map] at hx
      obtain ⟨y, hy, hxy⟩ := hx
      have := ih a s pos cp y hy
      subst hxy; exact this

/-- An anchored attempt ends at or after its start. -/
theorem tryAt_pos_le {ml da : Bool} {r : Regex} {s : Str} {pos : Nat}
    {ec : Nat × Caps} (h : tryAt ml da r s pos = some ec) : pos ≤ ec.1 := by
  unfold tryAt at h
  exact mrun_pos_le _ r s pos [] ec (List.mem_of_mem_head? h)

/-- A search result starts at or after the scan position and spans
forward. -/
theorem searchAux_bounds {ml da : Bool} {r : Regex} {s : Str} :
    ∀ (k pos : Nat) (m : MatchRes), searchAux ml da r s k pos = some m →
      pos ≤ m.mstart ∧ m.mstart ≤ m.mstop := by
  intro k
  induction k with
  | zero => intro pos m h; simp [searchAux] at h
  | succ k ih =>
    intro pos m h
    simp only [searchAux] at h
    split at h
    · rename_i ec hec
      cases h
      exact ⟨le_refl _, tryAt_pos_le hec⟩
    · obtain ⟨h1, h2⟩ := ih (pos + 1) m h
      exact ⟨le_trans (Nat.le_succ _) h1, h2⟩

/-- Every match finditer emits starts at or after the scan position. -/
theorem finditerAux_start_ge {ml da : Bool} {r : Regex} {s : Str} :
    ∀ (k pos : Nat), ∀ m ∈ finditerAux ml da r s k pos, pos ≤ m.mstart := by
  intro k
  induction k with
  | zero => intro pos m hm; simp [finditerAux] at hm
  | succ k ih =>
    intro pos m hm
    simp only [finditerAux] at hm
    split at hm
    · simp at hm
    · split at hm
      · simp at hm
      · rename_i m0 hm0
        simp only [List.mem_cons] at hm
        rcases hm with rfl | hm
        · exact (searchAux_bounds _ _ _ hm0).1
        · have h0 := @searchAux_bounds ml da _ _ _ _ _ hm0
          have hnext := ih _ m hm
          split at hnext
          · omega
          · omega

/-- finditer's matches appear in strictly increasing order of start
position: tables are found left to right in the source text. -/
theorem finditerAux_chain {ml da : Bool} {r : Regex} {s : Str} :
    ∀ (k pos : Nat),
      List.Chain' (fun a b => a.mstart < b.mstart) (finditerAux ml da r s k pos) := by
  intro k
  induction k with
  | zero => intro pos; simp [finditerAux]
  | succ k ih =>
    intro pos
    simp only [finditerAux]
    split
    · exact List.chain'_nil
    · split
      · exact List.chain'_nil
      · rename_i m0 hm0
        refine List.chain'_cons'.mpr ⟨?_, ih _⟩
        intro m hm
        have hb := @searchAux_bounds ml da _ _ _ _ _ hm0
        have hmem : m ∈ finditerAux ml da r s k
            (if m0.mstop = m0.mstart then m0.mstop + 1 else m0.mstop) := by
          exact List.mem_of_mem_head? hm
        have hge := finditerAux_start_ge _ _ m hmem
        split at hge
        · rename_i heq
          omega
        · rename_i hne
          omega

/-- Corollary for the top-level finditer. -/
theorem finditer_chain (ml da : Bool) (r : Regex) (s : Str) :
    List.Chain' (fun a b => a.mstart < b.mstart) (finditer ml da r s) :=
  finditerAux_chain _ _

/-- If the effectful map succeeded, it succeeded on every element. -/
theorem collectM_ok_mem {ε α β : Type} {f : α → Except ε β} :
    ∀ {l : List α} {ys : List β}, collectM f l = .ok ys →
      ∀ x ∈ l, ∃ y, f x = .ok y := by
  intro l
  induction l with
  | nil => intro ys _ x hx; simp at hx
  | cons a l ih =>
    intro ys h x hx
    simp only [collectM] at h
    split at h
    · cases h
    · rename_i y hy
      split at h
      · cases h
      · rename_i ys' hys'
        simp only [List.mem_cons] at hx
        rcases hx with rfl | hx
        · exact ⟨y, hy⟩
        · exact ih hys' x hx

/-- If some element fails, the effectful map fails. -/
theorem collectM_error_of_mem {ε α β : Type} {f : α → Except ε β} :
    ∀ {l : List α} {x : α} {e : ε}, x ∈ l → f x = .error e →
      ∃ e', collectM f l = .error e' := by
  intro l
  induction l with
  | nil => intro x e hx; simp at hx
  | cons a l ih =>
    intro x e hx hfx
    simp only [List.mem_cons] at hx
    rcases hx with rfl | hx
    · exact ⟨e, by simp [collectM, hfx]⟩
    · simp only [collectM]
      split
      · rename_i e0 he0; exact ⟨e0, rfl⟩
      · obtain ⟨e', he'⟩ := ih hx hfx
        exact ⟨e', by simp [he']⟩

/-- If every element succeeds, the effectful map succeeds and its output
is as long as its input. -/
theorem collectM_ok_of_forall {ε α β : Type} {f : α → Except ε β} :
    ∀ {l : List α}, (∀ x ∈ l, ∃ y, f x = .ok y) →
      ∃ ys, collectM f l = .ok ys ∧ ys.length = l.length := by
  intro l
  induction l with
  | nil => intro _; exact ⟨[], rfl, rfl⟩
  | cons a l ih =>
    intro h
    obtain ⟨y, hy⟩ := h a (List.mem_cons_self _ _)
    obtain ⟨ys, hys, hlen⟩ := ih (fun x hx => h x (List.mem_cons_of_mem _ hx))
    exact ⟨y :: ys, by simp [collectM, hy, hys], by simp [hlen]⟩

/-- collectM over a success yields exactly the corresponding map. -/
theorem collectM_pure {ε α β : Type} (g : α → β) :
    ∀ (l : List α), collectM (fun x => (.ok (g x) : Except ε β)) l = .ok (l.map g) := by
  intro l
  induction l with
  | nil => rfl
  | cons a l ih => simp [collectM, ih]

/-- The output of a successful effectful map has the input's length. -/
theorem collectM_ok_length {ε α β : Type} {f : α → Except ε β} :
    ∀ {l : List α} {ys : List β}, collectM f l = .ok ys → ys.length = l.length := by
  intro l
  induction l with
  | nil => intro ys h; cases h; rfl
  | cons a l ih =>
    intro ys h
    simp only [collectM] at h
    split at h
    · cases h
    · split at h
      · cases h
      · rename_i ys' hys'
        cases h
        simp [ih hys']

/-- Looking up the key just assigned yields the assigned value. -/
theorem lookupD_insert_self {α : Type} (k : Str) (v : Value α) :
    ∀ (d : Data α), lookupD (insertData k v d) k = some v := by
  intro d
  induction d with
  | nil => simp [insertData, lookupD]
  | cons kv d ih =>
    cases kv with
    | mk k' v' =>
      by_cases h : k' = k
      · simp [insertData, h, lookupD]
      · simp [insertData, h, lookupD, ih]

/-- Assignment leaves other keys unchanged. -/
theorem lookupD_insert_ne {α : Type} {k k' : Str} (h : k' ≠ k) (v : Value α) :
    ∀ (d : Data α), lookupD (insertData k v d) k' = lookupD d k' := by
  intro d
  induction d with
  | nil => simp [insertData, lookupD, Ne.symm h]
  | cons kv d ih =>
    cases kv with
    | mk k0 v0 =>
      by_cases h0 : k0 = k
      · subst h0
        simp only [insertData, if_pos rfl, lookupD]
        rw [if_neg (Ne.symm h), if_neg (Ne.symm h)]
      · simp only [insertData, if_neg h0, lookupD]
        by_cases h1 : k0 = k'
        · subst h1; simp
        · rw [if_neg h1, if_neg h1]
          exact ih

/-- Assignment can only add to the key set. -/
theorem lookupD_insert_isSome {α : Type} {k k' : Str} (v : Value α) (d : Data α)
    (h : (lookupD d k').isSome = true) :
    (lookupD (insertData k v d) k').isSome = true := by
  by_cases hk : k' = k
  · subst hk; simp [lookupD_insert_self]
  · rw [lookupD_insert_ne hk]; exact h

/-- Storing scalars does not touch keys outside the pattern set. -/
theorem storeScalars_lookup_other {α : Type} :
    ∀ (ps : List (Str × RegexPat)) (sts : List (Entries α)) (d : Data α) (k : Str),
      k ∉ ps.map Prod.fst → lookupD (storeScalars ps sts d) k = lookupD d k := by
  intro ps
  induction ps with
  | nil => intro sts d k _; cases sts <;> rfl
  | cons kp ps ih =>
    intro sts d k hk
    cases kp with
    | mk k0 p0 =>
      simp only [List.map_cons, List.mem_cons] at hk
      push_neg at hk
      cases sts with
      | nil =>
        simp only [storeScalars]
        rw [ih [] _ k hk.2, lookupD_insert_ne hk.1]
      | cons es rest =>
        simp only [storeScalars]
        rw [ih rest _ k hk.2, lookupD_insert_ne hk.1]

/-- Storing scalars preserves the presence of any key. -/
theorem storeScalars_isSome_mono {α : Type} :
    ∀ (ps : List (Str × RegexPat)) (sts : List (Entries α)) (d : Data α) (k : Str),
      (lookupD d k).isSome = true →
      (lookupD (storeScalars ps sts d) k).isSome = true := by
  intro ps
  induction ps with
  | nil => intro sts d k h; cases sts <;> exact h
  | cons kp ps ih =>
    intro sts d k h
    cases kp with
    | mk k0 p0 =>
      cases sts with
      | nil => exact ih [] _ k (lookupD_insert_isSome _ _ h)
      | cons es rest => exact ih rest _ k (lookupD_insert_isSome _ _ h)

/-- After storing, every requested key is present. -/
theorem storeScalars_isSome {α : Type} :
    ∀ (ps : List (Str × RegexPat)) (sts : List (Entries α)) (d : Data α) (k : Str),
      k ∈ ps.map Prod.fst →
      (lookupD (storeScalars ps sts d) k).isSome = true := by
  intro ps
  induction ps with
  | nil => intro sts d k hk; simp at hk
  | cons kp ps ih =>
    intro sts d k hk
    cases kp with
    | mk k0 p0 =>
      simp only [List.map_cons, List.mem_cons] at hk
      rcases hk with rfl | hk
      · cases sts with
        | nil =>
          exact storeScalars_isSome_mono ps [] _ k
            (by rw [lookupD_insert_self]; rfl)
        | cons es rest =>
          exact storeScalars_isSome_mono ps rest _ k
            (by rw [lookupD_insert_self]; rfl)
      · cases sts with
        | nil => exact ih [] _ k hk
        | cons es rest => exact ih rest _ k hk

/-- The value stored for the j-th pattern is the j-th accumulator's group
lists, when the requested keys are distinct. -/
theorem storeScalars_lookup_at {α : Type} :
    ∀ (ps : List (Str × RegexPat)) (sts : List (Entries α)) (d : Data α)
      (j : Nat) (k : Str) (p : RegexPat) (es : Entries α),
      ps[j]? = some (k, p) → sts[j]? = some es →
      (ps.map Prod.fst).Nodup →
      lookupD (storeScalars ps sts d) k = some (.scalar (es.map (fun e => e.1))) := by
  intro ps
  induction ps with
  | nil => intro sts d j k p es h _ _; simp at h
  | cons kp ps ih =>
    intro sts d j k p es hj hsj hnd
    cases kp with
    | mk k0 p0 =>
      simp only [List.map_cons, List.nodup_cons] at hnd
      cases sts with
      | nil => simp at hsj
      | cons es0 rest =>
        cases j with
        | zero =>
          simp only [List.getElem?_cons_zero, Option.some_inj] at hj hsj
          cases hj
          cases hsj
          simp only [storeScalars]
          rw [storeScalars_lookup_other ps rest _ k hnd.1, lookupD_insert_self]
        | succ j =>
          simp only [List.getElem?_cons_succ] at hj hsj
          simp only [storeScalars]
          exact ih rest _ j k p es hj hsj hnd.2

/-- regrep's per-line step keeps the accumulator list parallel to the
pattern list. -/
theorem lineStep_length {ε α : Type} {post : Option Str → Except ε α} {l : Str} {idx : Int} :
    ∀ (ps : List (Str × RegexPat)) (st st' : List (Entries α)),
      st.length = ps.length → lineStep post l idx ps st = .ok st' →
      st'.length = ps.length := by
  intro ps
  induction ps with
  | nil => intro st st' hl h; cases h; exact hl
  | cons kp ps ih =>
    intro st st' hl h
    cases kp with
    | mk k0 p0 =>
      cases st with
      | nil => simp at hl
      | cons es st =>
        simp only [List.length_cons, Nat.succ.injEq] at hl
        simp only [lineStep] at h
        split at h
        · simp only [Except.map] at h
          split at h
          · cases h
          · rename_i st0 hst0
            cases h
            simp [ih st st0 hl hst0]
        · split at h
          · cases h
          · simp only [Except.map] at h
            split at h
            · cases h
            · rename_i st0 hst0
              cases h
              simp [ih st st0 hl hst0]

/-- With a postprocess that never raises, the per-line step never
raises. -/
theorem lineStep_ok_total {ε α : Type} {post : Option Str → Except ε α}
    (hpost : ∀ v, ∃ a, post v = .ok a) {l : Str} {idx : Int} :
    ∀ (ps : List (Str × RegexPat)) (st : List (Entries α)),
      ∃ st', lineStep post l idx ps st = .ok st' := by
  intro ps
  induction ps with
  | nil => intro st; exact ⟨st, rfl⟩
  | cons kp ps ih =>
    intro st
    cases kp with
    | mk k0 p0 =>
      cases st with
      | nil => exact ⟨[], rfl⟩
      | cons es st =>
        obtain ⟨st0, hst0⟩ := ih st
        simp only [lineStep]
        split
        · exact ⟨es :: st0, by simp [hst0, Except.map]⟩
        · rename_i m _
          obtain ⟨g, hg⟩ := collectM_ok_of_forall
            (f := fun v => post v)
            (l := (List.range p0.ngroups).map (fun i => capLookup m.caps (i + 1)))
            (fun x _ => hpost x)
          rw [show groupsOf p0 post m = .ok g from hg.1]
          exact ⟨(es ++ [(g, idx)]) :: st0, by simp [hst0, Except.map]⟩

/-- A pattern that does not match the line leaves its accumulator
untouched. -/
theorem lineStep_at_nomatch {ε α : Type} {post : Option Str → Except ε α} {l : Str} {idx : Int} :
    ∀ (ps : List (Str × RegexPat)) (st st' : List (Entries α)) (j : Nat)
      (k : Str) (p : RegexPat),
      lineStep post l idx ps st = .ok st' →
      ps[j]? = some (k, p) → rsearch false false p.ast l = none →
      st'[j]? = st[j]? := by
  intro ps
  induction ps with
  | nil => intro st st' j k p h hj _; cases h; rfl
  | cons kp ps ih =>
    intro st st' j k p h hj hs
    cases kp with
    | mk k0 p0 =>
      cases st with
      | nil =>
        cases h
        simp
      | cons es st =>
        simp only [lineStep] at h
        split at h
        · simp only [Except.map] at h
          split at h
          · cases h
          · rename_i st0 hst0
            cases h
            cases j with
            | zero => simp
            | succ j =>
              simp only [List.getElem?_cons_succ] at hj ⊢
              exact ih st st0 j k p hst0 hj hs
        · rename_i m hm
          split at h
          · cases h
          · simp only [Except.map] at h
            split at h
            · cases h
            · rename_i st0 hst0
              cases h
              cases j with
              | zero =>
                simp only [List.getElem?_cons_zero, Option.some_inj] at hj
                cases hj
                rw [hs] at hm
                cases hm
              | succ j =>
                simp only [List.getElem?_cons_succ] at hj ⊢
                exact ih st st0 j k p hst0 hj hs

/-- The scan keeps the accumulator list parallel to the pattern list. -/
theorem scanLines_length {ε α : Type} {pats : List (Str × RegexPat)}
    {post : Option Str → Except ε α} {term rev : Bool} :
    ∀ (ls : List Str) (i : Nat) (st st' : List (Entries α)),
      st.length = pats.length →
      scanLines pats post term rev ls i st = .ok st' →
      st'.length = pats.length := by
  intro ls
  induction ls with
  | nil => intro i st st' hl h; cases h; exact hl
  | cons l rest ih =>
    intro i st st' hl h
    simp only [scanLines] at h
    split at h
    · cases h
    · rename_i st0 hst0
      have hl0 := lineStep_length pats st st0 hl hst0
      split at h
      · cases h; exact hl0
      · exact ih _ st0 st' hl0 h

/-- With a postprocess that never raises, the scan never raises. -/
theorem scanLines_ok_total {ε α : Type} {pats : List (Str × RegexPat)}
    {post : Option Str → Except ε α} (hpost : ∀ v, ∃ a, post v = .ok a)
    {term rev : Bool} :
    ∀ (ls : List Str) (i : Nat) (st : List (Entries α)),
      ∃ st', scanLines pats post term rev ls i st = .ok st' := by
  intro ls
  induction ls with
  | nil => intro i st; exact ⟨st, rfl⟩
  | cons l rest ih =>
    intro i st
    obtain ⟨st0, hst0⟩ := @lineStep_ok_total _ _ _ hpost l (lineNo rev i) pats st
    simp only [scanLines, hst0]
    split
    · exact ⟨st0, rfl⟩
    · exact ih _ st0

/-- A pattern that matches no scanned line keeps its initial (empty)
accumulator through the whole scan. -/
theorem scanLines_at_nomatch {ε α : Type} {pats : List (Str × RegexPat)}
    {post : Option Str → Except ε α} {term rev : Bool} :
    ∀ (ls : List Str) (i : Nat) (st st' : List (Entries α)) (j : Nat)
      (k : Str) (p : RegexPat),
      scanLines pats post term rev ls i st = .ok st' →
      pats[j]? = some (k, p) →
      (∀ l ∈ ls, rsearch false false p.ast l = none) →
      st'[j]? = st[j]? := by
  intro ls
  induction ls with
  | nil => intro i st st' j k p h _ _; cases h; rfl
  | cons l rest ih =>
    intro i st st' j k p h hj hno
    simp only [scanLines] at h
    split at h
    · cases h
    · rename_i st0 hst0
      have h0 : st0[j]? = st[j]? :=
        lineStep_at_nomatch pats st st0 j k p hst0 hj (hno l (List.mem_cons_self _ _))
      split at h
      · cases h; exact h0
      · rw [ih _ st0 st' j k p h hj (fun x hx => hno x (List.mem_cons_of_mem _ hx))]
        exact h0

/-- For a single pattern, the final accumulator is empty exactly when the
starting accumulator was empty and no scanned line matched, with or
without early termination. -/
theorem scanLines_single {ε α : Type} {post : Option Str → Except ε α}
    {term rev : Bool} {k : Str} {p : RegexPat} :
    ∀ (ls : List Str) (i : Nat) (es : Entries α) (st' : List (Entries α)),
      scanLines [(k, p)] post term rev ls i [es] = .ok st' →
      ∃ es', st' = [es'] ∧
        es'.isEmpty = (es.isEmpty &&
          !(ls.any (fun l => (rsearch false false p.ast l).isSome))) := by
  intro ls
  induction ls with
  | nil =>
    intro i es st' h
    cases h
    exact ⟨es, rfl, by simp⟩
  | cons l rest ih =>
    intro i es st' h
    simp only [scanLines] at h
    split at h
    · cases h
    · rename_i st0 hst0
      simp only [lineStep] at hst0
      split at hst0
      · rename_i hsm
        simp only [Except.map, lineStep] at hst0
        cases hst0
        split at h
        · rename_i hterm
          cases h
          simp only [List.all_cons, List.all_nil, Bool.and_true] at hterm
          refine ⟨es, rfl, ?_⟩
          have : es.isEmpty = false := by
            rcases Bool.and_eq_true_iff.mp hterm with ⟨_, h2⟩
            simpa using h2
          simp [this]
        · obtain ⟨es', rfl, he⟩ := ih _ es st' h
          refine ⟨es', rfl, ?_⟩
          simp [he, List.any_cons, hsm]
      · rename_i m hsm
        split at hst0
        · cases hst0
        · rename_i g hg
          simp only [Except.map, lineStep] at hst0
          cases hst0
          have hne : (es ++ [(g, lineNo rev i)]).isEmpty = false := by
            simp
          split at h
          · cases h
            exact ⟨_, rfl, by simp [hne, List.any_cons, hsm]⟩
          · obtain ⟨es', rfl, he⟩ := ih _ _ st' h
            refine ⟨es', rfl, ?_⟩
            simp [he, hne, List.any_cons, hsm]

/-- The default postprocess turns a match's groups into exactly the
Python-rendered group list. -/
theorem groupsOf_strPost {ε : Type} (p : RegexPat) (m : MatchRes) :
    groupsOf p (strPost (ε := ε)) m = .ok (pyGroups p m) := by
  unfold groupsOf pyGroups strPost
  rw [collectM_pure pyStr]
  simp [List.map_map]

/-- For a single pattern scanned without early termination under the
default postprocess, the accumulator's group lists are exactly those of
the matching lines, in scan order. -/
theorem scanLines_single_groups {ε : Type} {rev : Bool} {k : Str} {p : RegexPat} :
    ∀ (ls : List Str) (i : Nat) (es : Entries Str) (st' : List (Entries Str)),
      scanLines [(k, p)] (strPost (ε := ε)) false rev ls i [es] = .ok st' →
      ∃ es', st' = [es'] ∧
        es'.map Prod.fst = es.map Prod.fst ++
          ls.filterMap (fun l => (rsearch false false p.ast l).map (pyGroups p)) := by
  intro ls
  induction ls with
  | nil =>
    intro i es st' h
    cases h
    exact ⟨es, rfl, by simp⟩
  | cons l rest ih =>
    intro i es st' h
    simp only [scanLines] at h
    split at h
    · cases h
    · rename_i st0 hst0
      simp only [lineStep] at hst0
      split at hst0
      · rename_i hsm
        simp only [Except.map, lineStep] at hst0
        cases hst0
        simp only [Bool.false_and, if_false] at h
        obtain ⟨es', rfl, he⟩ := ih _ es st' h
        exact ⟨es', rfl, by simp [he, hsm]⟩
      · rename_i m hsm
        rw [groupsOf_strPost] at hst0
        simp only [Except.map, lineStep] at hst0
        cases hst0
        simp only [Bool.false_and, if_false] at h
        obtain ⟨es', rfl, he⟩ := ih _ _ st' h
        refine ⟨es', rfl, ?_⟩
        simp [he, hsm]

/-- A single-pattern read with the default postprocess always succeeds,
assigns exactly the requested key, and assigns a non-empty list exactly
when some source line matches. -/
theorem read_pattern_single_strPost {ε : Type} (text : Str) (k : Str) (p : RegexPat)
    (d : Data Str) (term : Bool) :
    ∃ es, read_pattern text [(k, p)] false term (strPost (ε := ε)) d =
        (.ok (), insertData k (.scalar es) d) ∧
      es.isEmpty = !markerHit p text := by
  have hpost : ∀ v, ∃ a, (strPost (ε := ε)) v = .ok a := fun v => ⟨pyStr v, rfl⟩
  obtain ⟨st', hst'⟩ := @scanLines_ok_total _ _ [(k, p)] _ hpost term false
    (fileLines text) 0 [[]]
  obtain ⟨es', rfl, he⟩ := scanLines_single _ _ _ _ hst'
  refine ⟨es'.map (fun e => e.1), ?_, ?_⟩
  · unfold read_pattern regrep
    simp only [if_neg (by simp : ¬False), List.map_cons, List.map_nil]
    rw [show (if false = true then (fileLines text).reverse else fileLines text) = fileLines text from rfl]
    rw [hst']
    rfl
  · rw [show (es'.map (fun e => e.1)).isEmpty = es'.isEmpty from by cases es' <;> rfl]
    rw [he]
    simp [markerHit]

/-- A single-pattern full read with the default postprocess stores, per
matching line in scan order, the full list of that match's postprocessed
groups. -/
theorem read_pattern_single_matches {ε : Type} (text : Str) (k : Str) (p : RegexPat)
    (d : Data Str) :
    lookupD (read_pattern text [(k, p)] false false (strPost (ε := ε)) d).2 k =
      some (.scalar ((fileLines text).filterMap
        (fun l => (rsearch false false p.ast l).map (pyGroups p)))) := by
  have hpost : ∀ v, ∃ a, (strPost (ε := ε)) v = .ok a := fun v => ⟨pyStr v, rfl⟩
  obtain ⟨st', hst'⟩ := @scanLines_ok_total _ _ [(k, p)] _ hpost false false
    (fileLines text) 0 [[]]
  obtain ⟨es', rfl, he⟩ := scanLines_single_groups _ _ _ _ hst'
  unfold read_pattern regrep
  rw [show (if false = true then (fileLines text).reverse else fileLines text) = fileLines text from rfl]
  simp only [List.map_cons, List.map_nil]
  rw [hst']
  simp only [storeScalars]
  rw [lookupD_insert_self]
  simp only [List.map_nil, List.nil_append] at he
  rw [he]

/-- Unfolded form of read_table_pattern, for case analysis on the
processing outcome. -/
theorem read_table_pattern_eq {ε α : Type} (text : Str) (hp rp fp : RegexPat)
    (post : Option Str → Except ε α) (attr : Option Str) (lastOnly : Bool)
    (d : Data α) :
    read_table_pattern text hp rp fp post attr lastOnly d =
      match collectM (fun m => processBody rp post (bodyOf hp m))
          (finditer true true (tablePattern hp rp fp).ast text) with
      | .error e => (.error e, d)
      | .ok tables =>
        if lastOnly then
          match tables.getLast? with
          | none => (.error .emptyTableList, d)
          | some t => (.ok (.single t), store attr (.single t) d)
        else (.ok (.tables tables), store attr (.tables tables) d) := rfl

/-- Characterization of a successful non-collapsed table read: the table
list is the per-match processing of the body regions, in match order. -/
theorem read_table_tables_eq {ε α : Type} {text : Str} {hp rp fp : RegexPat}
    {post : Option Str → Except ε α} {attr : Option Str} {d : Data α}
    {ts : List (List (RowRecord α))} {d1 : Data α}
    (h : read_table_pattern text hp rp fp post attr false d = (.ok (.tables ts), d1)) :
    collectM (fun m => processBody rp post (bodyOf hp m))
      (finditer true true (tablePattern hp rp fp).ast text) = .ok ts := by
  rw [read_table_pattern_eq] at h
  revert h
  generalize hc : collectM (fun m => processBody rp post (bodyOf hp m))
      (finditer true true (tablePattern hp rp fp).ast text) = res
  intro h
  cases res with
  | error e0 => simp at h
  | ok tables =>
    simp only [Bool.false_eq_true, if_false, Prod.mk.injEq, Except.ok.injEq,
      Value.tables.injEq] at h
    rw [h.1]

/-- A table read that raises leaves `self.data` untouched. -/
theorem read_table_error_snd {ε α : Type} {text : Str} {hp rp fp : RegexPat}
    {post : Option Str → Except ε α} {attr : Option Str} {lastOnly : Bool}
    {d : Data α} {e : TableErr ε}
    (h : (read_table_pattern text hp rp fp post attr lastOnly d).1 = .error e) :
    (read_table_pattern text hp rp fp post attr lastOnly d).2 = d := by
  rw [read_table_pattern_eq] at h ⊢
  revert h
  generalize hc : collectM (fun m => processBody rp post (bodyOf hp m))
      (finditer true true (tablePattern hp rp fp).ast text) = res
  intro h
  cases res with
  | error e0 => rfl
  | ok tables =>
    cases lastOnly with
    | false => simp at h
    | true =>
      simp only [reduceIte] at h ⊢
      revert h
      generalize hl : tables.getLast? = lastRes
      intro h
      cases lastRes with
      | none => rfl
      | some t => simp at h

/-- A successful table read with an attribute name assigns exactly that
name in `self.data`. -/
theorem read_table_some_snd {ε α : Type} {text : Str} {hp rp fp : RegexPat}
    {post : Option Str → Except ε α} {a : Str} {lastOnly : Bool}
    {d : Data α} {r : Value α} {d1 : Data α}
    (h : read_table_pattern text hp rp fp post (some a) lastOnly d = (.ok r, d1)) :
    d1 = insertData a r d := by
  rw [read_table_pattern_eq] at h
  revert h
  generalize hc : collectM (fun m => processBody rp post (bodyOf hp m))
      (finditer true true (tablePattern hp rp fp).ast text) = res
  intro h
  cases res with
  | error e0 => simp at h
  | ok tables =>
    cases lastOnly with
    | false =>
      simp only [Bool.false_eq_true, if_false, Prod.mk.injEq, Except.ok.injEq] at h
      rw [← h.2, ← h.1]
      rfl
    | true =>
      simp only [reduceIte] at h
      revert h
      generalize hl : tables.getLast? = lastRes
      intro h
      cases lastRes with
      | none => simp at h
      | some t =>
        simp only [Prod.mk.injEq, Except.ok.injEq] at h
        rw [← h.2, ← h.1]
        rfl

/-- If some line of some detected body fails to process, the whole call
raises and `self.data` is untouched. -/
theorem read_table_error_of_line {ε α : Type} {text : Str} {hp rp fp : RegexPat}
    {post : Option Str → Except ε α} {attr : Option Str} {lastOnly : Bool}
    {d : Data α} {m : MatchRes}
    (hm : m ∈ finditer true true (tablePattern hp rp fp).ast text)
    {line : Str} (hl : line ∈ splitNl (bodyOf hp m))
    {e : TableErr ε} (hline : processLine rp post line = .error e) :
    isErr (read_table_pattern text hp rp fp post attr lastOnly d).1 = true ∧
    (read_table_pattern text hp rp fp post attr lastOnly d).2 = d := by
  obtain ⟨e1, he1⟩ := collectM_error_of_mem (f := processLine rp post) hl hline
  obtain ⟨e2, he2⟩ := collectM_error_of_mem
    (f := fun m => processBody rp post (bodyOf hp m)) hm (by
      show processBody rp post (bodyOf hp m) = .error e1
      unfold processBody
      exact he1)
  rw [read_table_pattern_eq, he2]
  exact ⟨rfl, rfl⟩

/-- Every element of a successful effectful map's output comes from some
input element. -/
theorem collectM_mem_ok {ε α β : Type} {f : α → Except ε β} :
    ∀ {l : List α} {ys : List β}, collectM f l = .ok ys →
      ∀ y ∈ ys, ∃ x ∈ l, f x = .ok y := by
  intro l
  induction l with
  | nil => intro ys h y hy; cases h; simp at hy
  | cons a l ih =>
    intro ys h y hy
    simp only [collectM] at h
    split at h
    · cases h
    · rename_i y0 hy0
      split at h
      · cases h
      · rename_i ys' hys'
        cases h
        simp only [List.mem_cons] at hy
        rcases hy with rfl | hy
        · exact ⟨a, List.mem_cons_self _ _, hy0⟩
        · obtain ⟨x, hx, hfx⟩ := ih hys' y hy
          exact ⟨x, List.mem_cons_of_mem _ hx, hfx⟩

/-- The shape of a successfully processed row is decided by the row
pattern's named-group table alone, never by the line. -/
theorem processLine_shape {ε α : Type} {rp : RegexPat}
    {post : Option Str → Except ε α} {line : Str} {row : RowRecord α}
    (h : processLine rp post line = .ok row) :
    isNamedRec row = !rp.names.isEmpty := by
  unfold processLine at h
  split at h
  · cases h
  · rename_i m hm
    by_cases hn : rp.names = []
    · rw [if_neg (by simp [hn])] at h
      split at h
      · cases h
      · cases h
        simp [isNamedRec, hn]
    · rw [if_pos (by simpa using List.length_pos.mpr hn)] at h
      split at h
      · cases h
      · cases h
        simp [isNamedRec, List.isEmpty_iff, hn]

/-- C1: read_table_pattern with last_one_only=false returns the Tables in
the left-to-right order in which their compound matches occur in the text
(the match start positions are strictly increasing, and the returned table
list is the in-match-order processing of the bodies, each table listing
its body's physical lines in source order); in particular, the text with
three disjoint header/rows/footer blocks yields exactly its three tables
in left-to-right order, each holding exactly the rows between its header
and footer. -/
theorem read_table_order :
    (∀ (hp rp fp : RegexPat) (text : Str),
      List.Chain' (fun a b => a.mstart < b.mstart)
        (finditer true true (tablePattern hp rp fp).ast text)) ∧
    (∀ {ε α : Type} (text : Str) (hp rp fp : RegexPat)
       (post : Option Str → Except ε α) (attr : Option Str) (d : Data α)
       (ts : List (List (RowRecord α))) (d1 : Data α),
      read_table_pattern text hp rp fp post attr false d = (.ok (.tables ts), d1) →
      collectM (fun m => collectM (processLine rp post) (splitNl (bodyOf hp m)))
        (finditer true true (tablePattern hp rp fp).ast text) = .ok ts) ∧
    read_table_pattern exText exHp exRp exFp (strPost (ε := Unit))
        (some (str "TBL")) false [] =
      (.ok (.tables [exT1, exT2, exT3]),
       [(str "TBL", .tables [exT1, exT2, exT3])]) := by
  refine ⟨fun hp rp fp text => finditer_chain _ _ _ _, ?_, rfl⟩
  intro ε α text hp rp fp post attr d ts d1 h
  exact read_table_tables_eq h

/-- Witness for C1's conditional part, at the three-block text. -/
theorem read_table_order_witness :
    collectM (fun m => collectM (processLine exRp (strPost (ε := Unit)))
        (splitNl (bodyOf exHp m)))
      (finditer true true (tablePattern exHp exRp exFp).ast exText) =
      .ok [exT1, exT2, exT3] :=
  read_table_order.2.1 exText exHp exRp exFp (strPost (ε := Unit))
    (some (str "TBL")) [] [exT1, exT2, exT3]
    [(str "TBL", .tables [exT1, exT2, exT3])] rfl

/-- C2: a line inside a detected table body that fails to match the row
pattern makes the whole call raise — the groupdict lookup on the None a
failed search returns — instead of the line being skipped; the call
produces no result and leaves self.data untouched. -/
theorem read_table_malformed_row_aborts {ε α : Type} (text : Str)
    (hp rp fp : RegexPat) (post : Option Str → Except ε α) (attr : Option Str)
    (lastOnly : Bool) (d : Data α) (m : MatchRes)
    (hm : m ∈ finditer true true (tablePattern hp rp fp).ast text)
    (line : Str) (hl : line ∈ splitNl (bodyOf hp m))
    (hfail : rsearch false false rp.ast line = none) :
    isErr (read_table_pattern text hp rp fp post attr lastOnly d).1 = true ∧
    (read_table_pattern text hp rp fp post attr lastOnly d).2 = d := by
  apply read_table_error_of_line hm hl
  unfold processLine
  rw [hfail]

/-- Witness for C2: the text "H\n a\nb F" with row pattern (a)\s+(b) has a
detected body " a\nb" whose first split line " a" fails the row search,
and the call errors with self.data untouched. -/
theorem read_table_malformed_row_aborts_witness :
    isErr (read_table_pattern defText defHp defRp defFp (strPost (ε := Unit))
        none false []).1 = true ∧
    (read_table_pattern defText defHp defRp defFp (strPost (ε := Unit))
        none false []).2 = [] :=
  read_table_malformed_row_aborts defText defHp defRp defFp (strPost (ε := Unit))
    none false [] defMatch (by decide) (str " a") (by decide) (by decide)

/-- C3: with last_one_only=true on a text where the compound pattern
matches at least once, the call returns exactly the final Table of the
non-collapsed result, not wrapped in a sequence, and stores it under the
attribute name when one is given. -/
theorem read_table_lastOnly_last {ε α : Type} (text : Str) (hp rp fp : RegexPat)
    (post : Option Str → Except ε α) (attr : Option Str) (d : Data α)
    (ts : List (List (RowRecord α))) (d1 : Data α)
    (h : read_table_pattern text hp rp fp post attr false d = (.ok (.tables ts), d1))
    (hne : ts ≠ []) :
    ∃ t, ts.getLast? = some t ∧
      read_table_pattern text hp rp fp post attr true d =
        (.ok (.single t), store attr (.single t) d) := by
  have hc := read_table_tables_eq h
  obtain ⟨t, ht⟩ := Option.isSome_iff_exists.mp (List.getLast?_isSome.mpr hne)
  refine ⟨t, ht, ?_⟩
  rw [read_table_pattern_eq, hc]
  simp only [reduceIte]
  rw [ht]

/-- Witness for C3: on the three-block text, last_one_only returns the
third table alone and stores it. -/
theorem read_table_lastOnly_last_witness :
    read_table_pattern exText exHp exRp exFp (strPost (ε := Unit))
        (some (str "TBL")) true [] =
      (.ok (.single exT3), [(str "TBL", .single exT3)]) := by
  obtain ⟨t, ht, heq⟩ := read_table_lastOnly_last exText exHp exRp exFp
    (strPost (ε := Unit)) (some (str "TBL")) [] [exT1, exT2, exT3]
    [(str "TBL", .tables [exT1, exT2, exT3])] rfl (by decide)
  rw [show [exT1, exT2, exT3].getLast? = some exT3 from rfl] at ht
  cases ht
  exact heq

/-- C5: within one call, every row record has the same shape — a mapping
exactly when the row pattern declares named groups, an ordered sequence
otherwise. -/
theorem read_table_rowShape {ε α : Type} (text : Str) (hp rp fp : RegexPat)
    (post : Option Str → Except ε α) (attr : Option Str) (d : Data α)
    (ts : List (List (RowRecord α))) (d1 : Data α)
    (h : read_table_pattern text hp rp fp post attr false d = (.ok (.tables ts), d1)) :
    ∀ t ∈ ts, ∀ row ∈ t, isNamedRec row = !rp.names.isEmpty := by
  have hc := read_table_tables_eq h
  intro t ht row hrow
  obtain ⟨m, _, hm⟩ := collectM_mem_ok hc t ht
  obtain ⟨line, _, hline⟩ := collectM_mem_ok hm row hrow
  exact processLine_shape hline

/-- Witness for C5: a named-group row pattern yields dict-shaped rows. -/
theorem read_table_rowShape_witness :
    isNamedRec (.named [(str "x", str "a")]) = !namedRp.names.isEmpty :=
  read_table_rowShape namedText defHp namedRp defFp (strPost (ε := Unit))
    none [] [[.named [(str "x", str "a")]]] [] rfl
    [.named [(str "x", str "a")]] (by decide) (.named [(str "x", str "a")])
    (by decide)

/-- C6: a postprocess exception on a captured substring propagates as a
failure of the whole call; no partial result is produced and self.data is
left exactly as it was. -/
theorem read_table_post_error_atomic {ε α : Type} (text : Str) (hp rp fp : RegexPat)
    (post : Option Str → Except ε α) (attr : Option Str) (lastOnly : Bool)
    (d : Data α) (m : MatchRes)
    (hm : m ∈ finditer true true (tablePattern hp rp fp).ast text)
    (line : Str) (hl : line ∈ splitNl (bodyOf hp m))
    (e0 : ε) (hline : processLine rp post line = .error (.postErr e0)) :
    isErr (read_table_pattern text hp rp fp post attr lastOnly d).1 = true ∧
    (read_table_pattern text hp rp fp post attr lastOnly d).2 = d :=
  read_table_error_of_line hm hl hline

/-- Witness for C6: a postprocess failing on the captured "1" of the
three-block text's first row aborts the call and leaves self.data
empty. -/
theorem read_table_post_error_atomic_witness :
    isErr (read_table_pattern exText exHp exRp exFp failOn1
        (some (str "TBL")) false []).1 = true ∧
    (read_table_pattern exText exHp exRp exFp failOn1
        (some (str "TBL")) false []).2 = [] :=
  read_table_post_error_atomic exText exHp exRp exFp failOn1 (some (str "TBL"))
    false [] exMatch1 (by decide) (str " 1") (by decide) () rfl

/-- C9: when the compound pattern never matches, the non-collapsed call
returns the empty table list, stores it under the attribute name, and
does not raise. -/
theorem read_table_noMatch_empty {ε α : Type} (text : Str) (hp rp fp : RegexPat)
    (post : Option Str → Except ε α) (k : Str) (d : Data α)
    (h : finditer true true (tablePattern hp rp fp).ast text = []) :
    read_table_pattern text hp rp fp post (some k) false d =
      (.ok (.tables []), insertData k (.tables []) d) := by
  rw [read_table_pattern_eq, h]
  rfl

/-- Witness for C9: a text with no table framing yields the empty table
list. -/
theorem read_table_noMatch_empty_witness :
    read_table_pattern noTableText exHp exRp exFp (strPost (ε := Unit))
        (some (str "TBL")) false [] =
      (.ok (.tables []), [(str "TBL", .tables [])]) :=
  read_table_noMatch_empty noTableText exHp exRp exFp (strPost (ε := Unit))
    (str "TBL") [] (by decide)

/-- C10: with last_one_only=true and no compound match anywhere, the call
raises — indexing tables[-1] on the empty list — before any assignment,
so self.data is unchanged and nothing is returned in that mode. -/
theorem read_table_lastOnly_noMatch_raises {ε α : Type} (text : Str)
    (hp rp fp : RegexPat) (post : Option Str → Except ε α) (attr : Option Str)
    (d : Data α)
    (h : finditer true true (tablePattern hp rp fp).ast text = []) :
    read_table_pattern text hp rp fp post attr true d =
      (.error .emptyTableList, d) := by
  rw [read_table_pattern_eq, h]
  rfl

/-- Witness for C10: no-match text under last_one_only raises and leaves
self.data untouched. -/
theorem read_table_lastOnly_noMatch_raises_witness :
    read_table_pattern noTableText exHp exRp exFp (strPost (ε := Unit))
        none true [] = (.error .emptyTableList, []) :=
  read_table_lastOnly_noMatch_raises noTableText exHp exRp exFp
    (strPost (ε := Unit)) none [] (by decide)

/-- C4: with a postprocess that never raises (such as the default str) and
distinct keys, read_pattern always completes, its result mapping has an
entry for every requested key, and a key whose pattern matches no source
line maps to the empty list — never a missing key and never an error. -/
theorem read_pattern_total_keys {ε α : Type} (text : Str)
    (pats : List (Str × RegexPat)) (rev term : Bool)
    (post : Option Str → Except ε α) (d : Data α)
    (hpost : ∀ v, ∃ a, post v = .ok a)
    (hnd : (pats.map Prod.fst).Nodup) :
    ∃ d1, read_pattern text pats rev term post d = (.ok (), d1) ∧
      (∀ k ∈ pats.map Prod.fst, (lookupD d1 k).isSome = true) ∧
      (∀ (j : Nat) (k : Str) (p : RegexPat), pats[j]? = some (k, p) →
        (∀ l ∈ fileLines text, rsearch false false p.ast l = none) →
        lookupD d1 k = some (.scalar [])) := by
  obtain ⟨st', hst'⟩ := @scanLines_ok_total _ _ pats _ hpost term rev
    (if rev then (fileLines text).reverse else fileLines text) 0
    (pats.map (fun _ => []))
  refine ⟨storeScalars pats st' d, ?_, ?_, ?_⟩
  · unfold read_pattern regrep
    rw [hst']
  · intro k hk
    exact storeScalars_isSome pats st' d k hk
  · intro j k p hj hno
    have hjinit : (pats.map (fun _ => ([] : Entries α)))[j]? = some [] := by
      rw [List.getElem?_map, hj]
      rfl
    have hst'j : st'[j]? = some [] := by
      rw [scanLines_at_nomatch _ _ _ _ j k p hst' hj ?_]
      · exact hjinit
      · intro l hl
        apply hno
        cases rev with
        | false => simpa using hl
        | true => exact List.mem_reverse.mp (by simpa using hl)
    exact storeScalars_lookup_at pats st' d j k p [] hj hst'j hnd

/-- Witness for C4 at a concrete two-pattern read on the text "ab": the
matched key is present, and the key whose pattern has zero matches maps
to the empty list. -/
theorem read_pattern_total_keys_witness :
    (lookupD c4Data (str "k")).isSome = true ∧
    lookupD c4Data (str "q") = some (.scalar []) := by
  obtain ⟨d1, hd1, hkeys, hzero⟩ := read_pattern_total_keys (str "ab")
    [(str "k", abPat), (str "q", s2Pat)] false false (strPost (ε := Unit)) []
    (fun v => ⟨pyStr v, rfl⟩) (by decide)
  have h0 : read_pattern (str "ab") [(str "k", abPat), (str "q", s2Pat)]
      false false (strPost (ε := Unit)) [] = (.ok (), c4Data) := rfl
  rw [h0] at hd1
  have hdw : c4Data = d1 := (Prod.ext_iff.mp hd1).2
  rw [hdw]
  refine ⟨hkeys (str "k") (by simp), ?_⟩
  exact hzero 1 (str "q") s2Pat rfl (by decide)

/-- C8 counterexample: read_pattern does not keep only the first captured
group of a match — with the two-group pattern (a)(b) on the text "ab" the
stored per-match value is the full group list ["a", "b"], so the second
group is not discarded; likewise the spec's scenario stores the nested
list [["-76.12345"]], not the flat ["-76.12345"]. -/
theorem read_pattern_keeps_all_groups :
    lookupD (read_pattern (str "ab") [(str "k", abPat)] false false
        (strPost (ε := Unit)) []).2 (str "k") =
      some (.scalar [[str "a", str "b"]]) ∧
    ([str "a", str "b"] : List Str) ≠ [str "a"] ∧
    lookupD (read_pattern feText [(feKey, finalEnergyPat)] false false
        (strPost (ε := Unit)) []).2 feKey =
      some (.scalar [[str "-76.12345"]]) :=
  ⟨rfl, by decide, rfl⟩

/-- C8 amended: every match contributes exactly one stored value per
field, namely the full list of that match's postprocessed captured groups
(the line-number half of the regrep pair is the part discarded), in scan
order; the concrete scenario yields final_energy bound to the one-match
list [["-76.12345"]]. -/
theorem read_pattern_group_lists :
    (∀ {ε : Type} (text : Str) (k : Str) (p : RegexPat) (d : Data Str),
      lookupD (read_pattern text [(k, p)] false false (strPost (ε := ε)) d).2 k =
        some (.scalar ((fileLines text).filterMap
          (fun l => (rsearch false false p.ast l).map (pyGroups p))))) ∧
    lookupD (read_pattern feText [(feKey, finalEnergyPat)] false false
        (strPost (ε := Unit)) []).2 feKey =
      some (.scalar [[str "-76.12345"]]) :=
  ⟨fun text k p d => read_pattern_single_matches text k p d, rfl⟩

/-- C7: on successful construction, the GEN_SCFMAN table extraction is
performed iff the text matches the GEN_SCFMAN marker (otherwise the
old-style SCF extraction), the unrestricted Mulliken extraction and the
S2 scalar read are performed iff the text matches the unrestricted
marker (otherwise the restricted Mulliken extraction and no S2 read),
final_energy is always read, and the call trace puts the two cheap scalar
probes first, before the table scans they select. -/
theorem QCCalc_init_selects (text : Str) (d : Data Str)
    (h : (QCCalc_init text).1 = .ok d) :
    ((lookupD d genKey).isSome = markerHit genscfmanPat text) ∧
    ((lookupD d scfKey).isSome = !markerHit genscfmanPat text) ∧
    ((lookupD d umKey).isSome = markerHit unrestrictedPat text) ∧
    ((lookupD d rmKey).isSome = !markerHit unrestrictedPat text) ∧
    ((lookupD d s2Key).isSome = markerHit unrestrictedPat text) ∧
    ((lookupD d feKey).isSome = true) ∧
    (QCCalc_init text).2 = initTrace (markerHit genscfmanPat text)
      (markerHit unrestrictedPat text) := by
  obtain ⟨es1, hs1, he1⟩ := read_pattern_single_strPost (ε := QErr) text ukey
    unrestrictedPat [] true
  obtain ⟨es2, hs2, he2⟩ := read_pattern_single_strPost (ε := QErr) text gkey
    genscfmanPat (insertData ukey (.scalar es1) []) true
  have hg2 : truthy (lookupD (insertData gkey (Value.scalar es2)
      (insertData ukey (Value.scalar es1) [])) gkey) = markerHit genscfmanPat text := by
    rw [lookupD_insert_self]
    show (!es2.isEmpty) = _
    rw [he2, Bool.not_not]
  have hu2 : lookupD (insertData gkey (Value.scalar es2)
      (insertData ukey (Value.scalar es1) [])) ukey = some (.scalar es1) := by
    rw [lookupD_insert_ne (by decide), lookupD_insert_self]
  simp only [QCCalc_init, hs1, hs2, hg2] at h ⊢
  cases hmg : markerHit genscfmanPat text with
  | false =>
    rw [hmg] at h
    simp only [Bool.false_eq_true, if_false] at h ⊢
    rcases h3 : read_table_pattern text scfHeader scfRow scfFooter
        (strPost (ε := Unit)) (some scfKey) false
        (insertData gkey (Value.scalar es2) (insertData ukey (Value.scalar es1) []))
      with ⟨r3, d3⟩
    rw [h3] at h
    cases r3 with
    | error e3 => simp at h
    | ok v3 =>
      have hd3 := read_table_some_snd h3
      have hu3 : truthy (lookupD d3 ukey) = markerHit unrestrictedPat text := by
        rw [hd3, lookupD_insert_ne (by decide), hu2]
        show (!es1.isEmpty) = _
        rw [he1, Bool.not_not]
      simp only [hu3] at h ⊢
      cases hmu : markerHit unrestrictedPat text with
      | false =>
        rw [hmu] at h
        simp only [Bool.false_eq_true, if_false] at h ⊢
        rcases h4 : read_table_pattern text rmHeader rmRow mullikenFooter
            (strPost (ε := Unit)) (some rmKey) false d3 with ⟨r4, d4⟩
        rw [h4] at h
        cases r4 with
        | error e4 => simp at h
        | ok v4 =>
          have hd4 := read_table_some_snd h4
          obtain ⟨es5, hs5, he5⟩ := read_pattern_single_strPost (ε := QErr)
            text feKey finalEnergyPat d4 false
          simp only [hs5] at h ⊢
          have hd := Except.ok.inj h
          subst hd
          rw [hd4, hd3]
          simp only [initTrace]
          refine ⟨?_, ?_, ?_, ?_, ?_, ?_, rfl⟩
          · rw [lookupD_insert_ne (by decide), lookupD_insert_ne (by decide),
              lookupD_insert_ne (by decide), lookupD_insert_ne (by decide),
              lookupD_insert_ne (by decide)]
            rfl
          · rw [lookupD_insert_ne (by decide), lookupD_insert_ne (by decide),
              lookupD_insert_self]
            rfl
          · rw [lookupD_insert_ne (by decide), lookupD_insert_ne (by decide),
              lookupD_insert_ne (by decide), lookupD_insert_ne (by decide),
              lookupD_insert_ne (by decide)]
            rfl
          · rw [lookupD_insert_ne (by decide), lookupD_insert_self]
            rfl
          · rw [lookupD_insert_ne (by decide), lookupD_insert_ne (by decide),
              lookupD_insert_ne (by decide), lookupD_insert_ne (by decide),
              lookupD_insert_ne (by decide)]
            rfl
          · rw [lookupD_insert_self]
            rfl
      | true =>
        rw [hmu] at h
        simp only [if_pos rfl, reduceIte] at h ⊢
        rcases h4 : read_table_pattern text umHeader umRow mullikenFooter
            (strPost (ε := Unit)) (some umKey) false d3 with ⟨r4, d4⟩
        rw [h4] at h
        cases r4 with
        | error e4 => simp at h
        | ok v4 =>
          have hd4 := read_table_some_snd h4
          obtain ⟨es5, hs5, he5⟩ := read_pattern_single_strPost (ε := QErr)
            text feKey finalEnergyPat d4 false
          simp only [hs5] at h ⊢
          obtain ⟨es6, hs6, he6⟩ := read_pattern_single_strPost (ε := QErr)
            text s2Key s2Pat (insertData feKey (Value.scalar es5) d4) false
          simp only [hs6] at h ⊢
          have hd := Except.ok.inj h
          subst hd
          rw [hd4, hd3]
          simp only [initTrace]
          refine ⟨?_, ?_, ?_, ?_, ?_, ?_, rfl⟩
          · rw [lookupD_insert_ne (by decide), lookupD_insert_ne (by decide),
              lookupD_insert_ne (by decide), lookupD_insert_ne (by decide),
              lookupD_insert_ne (by decide), lookupD_insert_ne (by decide)]
            rfl
          · rw [lookupD_insert_ne (by decide), lookupD_insert_ne (by decide),
              lookupD_insert_ne (by decide), lookupD_insert_self]
            rfl
          · rw [lookupD_insert_ne (by decide), lookupD_insert_ne (by decide),
              lookupD_insert_self]
            rfl
          · rw [lookupD_insert_ne (by decide), lookupD_insert_ne (by decide),
              lookupD_insert_ne (by decide), lookupD_insert_ne (by decide),
              lookupD_insert_ne (by decide), lookupD_insert_ne (by decide)]
            rfl
          · rw [lookupD_insert_self]
            rfl
          · rw [lookupD_insert_ne (by decide), lookupD_insert_self]
            rfl
  | true =>
    rw [hmg] at h
    simp only [if_pos rfl, reduceIte] at h ⊢
    rcases h3 : read_table_pattern text genHeader genRow genFooter
        (strPost (ε := Unit)) (some genKey) false
        (insertData gkey (Value.scalar es2) (insertData ukey (Value.scalar es1) []))
      with ⟨r3, d3⟩
    rw [h3] at h
    cases r3 with
    | error e3 => simp at h
    | ok v3 =>
      have hd3 := read_table_some_snd h3
      have hu3 : truthy (lookupD d3 ukey) = markerHit unrestrictedPat text := by
        rw [hd3, lookupD_insert_ne (by decide), hu2]
        show (!es1.isEmpty) = _
        rw [he1, Bool.not_not]
      simp only [hu3] at h ⊢
      cases hmu : markerHit unrestrictedPat text with
      | false =>
        rw [hmu] at h
        simp only [Bool.false_eq_true, if_false] at h ⊢
        rcases h4 : read_table_pattern text rmHeader rmRow mullikenFooter
            (strPost (ε := Unit)) (some rmKey) false d3 with ⟨r4, d4⟩
        rw [h4] at h
        cases r4 with
        | error e4 => simp at h
        | ok v4 =>
          have hd4 := read_table_some_snd h4
          obtain ⟨es5, hs5, he5⟩ := read_pattern_single_strPost (ε := QErr)
            text feKey finalEnergyPat d4 false
          simp only [hs5] at h ⊢
          have hd := Except.ok.inj h
          subst hd
          rw [hd4, hd3]
          simp only [initTrace]
          refine ⟨?_, ?_, ?_, ?_, ?_, ?_, rfl⟩
          · rw [lookupD_insert_ne (by decide), lookupD_insert_ne (by decide),
              lookupD_insert_self]
            rfl
          · rw [lookupD_insert_ne (by decide), lookupD_insert_ne (by decide),
              lookupD_insert_ne (by decide), lookupD_insert_ne (by decide),
              lookupD_insert_ne (by decide)]
            rfl
          · rw [lookupD_insert_ne (by decide), lookupD_insert_ne (by decide),
              lookupD_insert_ne (by decide), lookupD_insert_ne (by decide),
              lookupD_insert_ne (by decide)]
            rfl
          · rw [lookupD_insert_ne (by decide), lookupD_insert_self]
            rfl
          · rw [lookupD_insert_ne (by decide), lookupD_insert_ne (by decide),
              lookupD_insert_ne (by decide), lookupD_insert_ne (by decide),
              lookupD_insert_ne (by decide)]
            rfl
          · rw [lookupD_insert_self]
            rfl
      | true =>
        rw [hmu] at h
        simp only [if_pos rfl, reduceIte] at h ⊢
        rcases h4 : read_table_pattern text umHeader umRow mullikenFooter
            (strPost (ε := Unit)) (some umKey) false d3 with ⟨r4, d4⟩
        rw [h4] at h
        cases r4 with
        | error e4 => simp at h
        | ok v4 =>
          have hd4 := read_table_some_snd h4
          obtain ⟨es5, hs5, he5⟩ := read_pattern_single_strPost (ε := QErr)
            text feKey finalEnergyPat d4 false
          simp only [hs5] at h ⊢
          obtain ⟨es6, hs6, he6⟩ := read_pattern_single_strPost (ε := QErr)
            text s2Key s2Pat (insertData feKey (Value.scalar es5) d4) false
          simp only [hs6] at h ⊢
          have hd := Except.ok.inj h
          subst hd
          rw [hd4, hd3]
          simp only [initTrace]
          refine ⟨?_, ?_, ?_, ?_, ?_, ?_, rfl⟩
          · rw [lookupD_insert_ne (by decide), lookupD_insert_ne (by decide),
              lookupD_insert_ne (by decide), lookupD_insert_self]
            rfl
          · rw [lookupD_insert_ne (by decide), lookupD_insert_ne (by decide),
              lookupD_insert_ne (by decide), lookupD_insert_ne (by decide),
              lookupD_insert_ne (by decide), lookupD_insert_ne (by decide)]
            rfl
          · rw [lookupD_insert_ne (by decide), lookupD_insert_ne (by decide),
              lookupD_insert_self]
            rfl
          · rw [lookupD_insert_ne (by decide), lookupD_insert_ne (by decide),
              lookupD_insert_ne (by decide), lookupD_insert_ne (by decide),
              lookupD_insert_ne (by decide), lookupD_insert_ne (by decide)]
            rfl
          · rw [lookupD_insert_self]
            rfl
          · rw [lookupD_insert_ne (by decide), lookupD_insert_self]
            rfl

/-- Witness for C7 at the empty source text: construction succeeds with
both probes missing, so the SCF and restricted-Mulliken variants run,
final_energy is present, S2 is absent, and the trace is
probe, probe, table, table, final scalar. -/
theorem QCCalc_init_selects_witness :
    ((lookupD initEmptyData genKey).isSome = markerHit genscfmanPat (str "")) ∧
    ((lookupD initEmptyData scfKey).isSome = !markerHit genscfmanPat (str "")) ∧
    ((lookupD initEmptyData umKey).isSome = markerHit unrestrictedPat (str "")) ∧
    ((lookupD initEmptyData rmKey).isSome = !markerHit unrestrictedPat (str "")) ∧
    ((lookupD initEmptyData s2Key).isSome = markerHit unrestrictedPat (str "")) ∧
    ((lookupD initEmptyData feKey).isSome = true) ∧
    (QCCalc_init (str "")).2 = initTrace (markerHit genscfmanPat (str ""))
      (markerHit unrestrictedPat (str "")) :=
  QCCalc_init_selects (str "") initEmptyData rfl

end QC

